import Mathlib

/-!
Verification of the lock lifecycle protocol of django-db-locking.

The repository ships src/locking/tasks.py (the cleanup task) and
src/locking/tests.py; the model module locking/models.py and the
exception module locking/exceptions.py are not under src/, so the
manager and handle operations below are modelled from the spec
(sections 3, 4.2 and 4.3), pinned wherever src/locking/tests.py
exercises the behaviour.  Timestamps are naturals (seconds); database
uuids are naturals drawn from a fresh counter.
-/

namespace DbLocking

/-- Modelled from the spec: the typed outcomes of section 7
(locking/exceptions.py is not under src/; the names are imported by
src/locking/tests.py line 14). -/
inductive LockError where
  | AlreadyLocked
  | RenewalError
  | NonexistentLock
  | NotLocked
  | Expired
deriving Repr, DecidableEq

/-- Modelled from the spec: the LockRecord row of section 3
(locking/models.py is not under src/).  A lock handle is a snapshot of
such a row, so the same structure serves as the Lock handle of section
4.3.  The stored max_age is a number of seconds; src/locking/tests.py
(test_expired, lines 124-133) pins a stored max_age of 0 as "no
expiry". -/
structure NonBlockingLock where
  id : Nat
  locked_object : String
  created_on : Nat
  renewed_on : Nat
  expires_on : Nat
  max_age : Nat
deriving Repr, DecidableEq

/-- The durable lock table (spec section 4.1) together with a supply of
fresh ids for newly inserted rows. -/
structure DB where
  locks : List NonBlockingLock
  nextId : Nat
deriving Repr, DecidableEq

/-- The ambient Django settings relevant to the protocol: LOCK_MAX_AGE,
optional (spec section 6; src/locking/tests.py lines 157-188 exercise
unset, 0 and 1). -/
structure Settings where
  lock_max_age : Option Nat
deriving Repr, DecidableEq

/-- A target of acquisition: either an explicit lock_name string or an
arbitrary object with a type and a primary key (spec section 4.2 step
1). -/
inductive Target where
  | lockName (s : String)
  | obj (ty : String) (pk : Nat)
deriving Repr, DecidableEq

/-- Modelled from the spec: deterministic name resolution for an
arbitrary object, "derive a deterministic name from the caller-supplied
object's type and identity" (spec section 4.2 step 1; used by
src/locking/tests.py line 106). -/
def _get_lock_name : Target → String
  | .lockName s => s
  | .obj ty pk => ty ++ ":" ++ toString pk

/-- Modelled from the spec: the is_expired property of the Lock handle
(spec section 4.3), with the max_age = 0 case pinned by
src/locking/tests.py test_expired (lines 124-133): a row whose stored
max_age is 0 is never expired; otherwise the row is expired once
expires_on <= now (spec section 4.2). -/
def NonBlockingLock.is_expired (l : NonBlockingLock) (now : Nat) : Bool :=
  l.max_age != 0 && decide (l.expires_on ≤ now)

/-- Modelled from the spec: manager.acquire_lock (spec section 4.2).
When no max_age argument is given the stored max_age defaults to the
LOCK_MAX_AGE setting, 0 when unset (pinned by src/locking/tests.py
lines 157-188: implicit reclamation works by giving such rows a finite
lease at acquisition, since src/locking/tasks.py only deletes expired
rows).  An existing non-expired row for the resolved name fails with
AlreadyLocked; an expired row is deleted first and a fresh row (fresh
id, created_on = renewed_on = now, expires_on = now + max_age) is
inserted; a uniqueness conflict surfacing at insertion is translated to
AlreadyLocked (spec section 4.2 step 5). -/
def acquire_lock (db : DB) (now : Nat) (target : Target)
    (max_age : Option Nat) (s : Settings) :
    Except LockError (NonBlockingLock × DB) :=
  let ma := max_age.getD (s.lock_max_age.getD 0)
  let name := _get_lock_name target
  match db.locks.find? (fun r => r.locked_object == name) with
  | some r =>
    if r.is_expired now then
      let remaining := db.locks.filter (fun x => x.id != r.id)
      if remaining.any (fun x => x.locked_object == name) then
        Except.error LockError.AlreadyLocked
      else
        let l : NonBlockingLock :=
          ⟨db.nextId, name, now, now, now + ma, ma⟩
        Except.ok (l, ⟨l :: remaining, db.nextId + 1⟩)
    else Except.error LockError.AlreadyLocked
  | none =>
    let l : NonBlockingLock :=
      ⟨db.nextId, name, now, now, now + ma, ma⟩
    Except.ok (l, ⟨l :: db.locks, db.nextId + 1⟩)

/-- Modelled from the spec: manager.is_locked (spec section 4.2), "true
iff a record exists for the resolved name and it is not expired". -/
def is_locked (db : DB) (now : Nat) (target : Target) : Bool :=
  db.locks.any
    (fun r => r.locked_object == _get_lock_name target && !(r.is_expired now))

/-- Modelled from the spec: handle.renew (spec sections 4.2 and 4.3).
Renewing an expired snapshot fails with Expired (src/locking/tests.py
test_renew_expired, lines 72-76).  Otherwise the handle saves itself
with renewed_on = now and a recomputed expires_on; the save fails with
RenewalError when the handle's locked_object is occupied by a row under
a different id — the uniqueness-constraint violation of
src/locking/tests.py test_renew_integrity_error (lines 43-50).
Otherwise the save updates the row carrying the handle's id in place
when one exists, and inserts the saved snapshot when none does (the
fresh-id counter is kept above every id present in the table). -/
def NonBlockingLock.renew (l : NonBlockingLock) (db : DB) (now : Nat) :
    Except LockError (NonBlockingLock × DB) :=
  if l.is_expired now then Except.error LockError.Expired
  else if db.locks.any
      (fun r => r.locked_object == l.locked_object && r.id != l.id) then
    Except.error LockError.RenewalError
  else
    let l' : NonBlockingLock :=
      { l with renewed_on := now, expires_on := now + l.max_age }
    if db.locks.any (fun r => r.id == l.id) then
      Except.ok (l', ⟨db.locks.map (fun r => if r.id == l.id then l' else r),
        db.nextId⟩)
    else
      Except.ok (l', ⟨l' :: db.locks, max db.nextId (l.id + 1)⟩)

/-- Modelled from the spec: manager.renew_lock (spec section 4.2): look
the row up by id, fail with NonexistentLock when absent
(src/locking/tests.py line 80), otherwise renew the found row as a
handle would. -/
def renew_lock (db : DB) (now : Nat) (i : Nat) :
    Except LockError (NonBlockingLock × DB) :=
  match db.locks.find? (fun r => r.id == i) with
  | none => Except.error LockError.NonexistentLock
  | some r => r.renew db now

/-- Modelled from the spec: handle.release (spec sections 4.2 and 4.3).
When a row with the handle's id exists it is deleted unconditionally,
regardless of expiry state; when it does not, silent mode (the default)
makes the call a no-op and non-silent mode fails with NotLocked
(src/locking/tests.py lines 29 and 94-100). -/
def NonBlockingLock.release (l : NonBlockingLock) (db : DB) (silent : Bool) :
    Except LockError DB :=
  if db.locks.any (fun r => r.id == l.id) then
    Except.ok ⟨db.locks.filter (fun r => r.id != l.id), db.nextId⟩
  else if silent then Except.ok db
  else Except.error LockError.NotLocked

/-- Modelled from the spec: manager.release_lock (spec section 4.2):
look the row up by id, fail with NotLocked when absent
(src/locking/tests.py test_release_nonexistinglock, lines 82-84),
otherwise delete it unconditionally. -/
def release_lock (db : DB) (i : Nat) : Except LockError DB :=
  match db.locks.find? (fun r => r.id == i) with
  | none => Except.error LockError.NotLocked
  | some r => r.release db true

/-- Modelled from the spec: manager.get_expired_locks (spec section
4.2), "all rows with expires_on <= now" whose lease is finite
(src/locking/tests.py test_expired, lines 124-133: the max_age = 0 row
is not among the expired locks). -/
def get_expired_locks (db : DB) (now : Nat) : List NonBlockingLock :=
  db.locks.filter (fun r => r.is_expired now)

/-- From src/locking/tasks.py (lines 6-11): the cleanup task deletes
exactly the rows returned by get_expired_locks. -/
def clean_expired_locks (db : DB) (now : Nat) : DB :=
  ⟨db.locks.filter (fun r => !(r.is_expired now)), db.nextId⟩

/-- Modelled from the spec: scoped use of a Lock handle (spec section
4.3): entering the scope returns the handle itself. -/
def NonBlockingLock.enter (l : NonBlockingLock) : NonBlockingLock := l

/-- Modelled from the spec: the scope-exit action of a Lock handle
(spec section 4.3): an unconditional (silent) release of the handle's
row, taken on every exit path. -/
def NonBlockingLock.exitScope (l : NonBlockingLock) (db : DB) : DB :=
  match l.release db true with
  | Except.ok db' => db'
  | Except.error _ => db

/-- The exit path taken by the caller's scope: normal completion or an
error of the caller's own error type. -/
inductive ExitPath (ε : Type) where
  | normal
  | err (e : ε)
deriving Repr, DecidableEq

/-- Modelled from the spec: using a Lock handle as a scoped resource
(spec sections 4.3 and 9, src/locking/tests.py test_context_manager,
lines 135-139): the body runs on the handle returned by enter, and the
scope-exit release runs afterwards whatever exit path the body took. -/
def useLock {ε : Type} (l : NonBlockingLock) (db : DB)
    (body : NonBlockingLock → DB → ExitPath ε × DB) : ExitPath ε × DB :=
  let r := body l.enter db
  (r.1, l.exitScope r.2)

/-- Logical uniqueness of the table (spec section 3): no two rows share
a locked_object. -/
def namesOk (db : DB) : Prop :=
  db.locks.Pairwise (fun a b => a.locked_object ≠ b.locked_object)

/-- Primary-key uniqueness of the table: no two rows share an id. -/
def idsOk (db : DB) : Prop :=
  db.locks.Pairwise (fun a b => a.id ≠ b.id)

/-- The fresh-id counter is above every id present, so a newly
generated id never collides (spec section 3: id is globally unique). -/
def idsBound (db : DB) : Prop :=
  ∀ r ∈ db.locks, r.id < db.nextId

/-- Every row's expires_on is renewed_on + max_age (spec section 3). -/
def recordsOk (db : DB) : Prop :=
  ∀ r ∈ db.locks, r.expires_on = r.renewed_on + r.max_age

/-- Well-formedness of a database state. -/
def DB.wf (db : DB) : Prop :=
  namesOk db ∧ idsOk db ∧ idsBound db ∧ recordsOk db

/-- One protocol operation on the shared store: a successful acquire, a
renew (through the manager by id, or through a handle), a release
(through a handle, or through the manager by id), or a cleanup run.
Failed operations do not change the store, so they need no step. -/
inductive Step : DB → DB → Prop where
  | acquire {db : DB} {now : Nat} {target : Target} {ma : Option Nat}
      {s : Settings} {l : NonBlockingLock} {db' : DB} :
      acquire_lock db now target ma s = Except.ok (l, db') → Step db db'
  | renewManager {db : DB} {now i : Nat} {l : NonBlockingLock} {db' : DB} :
      renew_lock db now i = Except.ok (l, db') → Step db db'
  | renewHandle {db : DB} {now : Nat} {l l' : NonBlockingLock} {db' : DB} :
      NonBlockingLock.renew l db now = Except.ok (l', db') → Step db db'
  | releaseHandle {db : DB} {l : NonBlockingLock} {silent : Bool} {db' : DB} :
      NonBlockingLock.release l db silent = Except.ok db' → Step db db'
  | releaseManager {db : DB} {i : Nat} {db' : DB} :
      release_lock db i = Except.ok db' → Step db db'
  | cleanup {db : DB} {now : Nat} : Step db (clean_expired_locks db now)

/-- States reachable from the empty table by any sequence of protocol
operations. -/
inductive Reachable : DB → Prop where
  | init : Reachable ⟨[], 0⟩
  | step {db db' : DB} : Reachable db → Step db db' → Reachable db'

theorem acquire_ok_shape {db : DB} {now : Nat} {target : Target}
    {ma : Option Nat} {s : Settings} {l : NonBlockingLock} {db' : DB}
    (h : acquire_lock db now target ma s = Except.ok (l, db')) :
    l = ⟨db.nextId, _get_lock_name target, now, now,
          now + ma.getD (s.lock_max_age.getD 0), ma.getD (s.lock_max_age.getD 0)⟩
    ∧ db'.nextId = db.nextId + 1
    ∧ ∃ rest, db'.locks = l :: rest ∧ rest.Sublist db.locks
        ∧ ∀ x ∈ rest, x.locked_object ≠ _get_lock_name target := by
  unfold acquire_lock at h
  dsimp only at h
  split at h
  case _ r hfind =>
    split at h
    case isTrue hexp =>
      split at h
      case isTrue hany => exact absurd h (by simp)
      case isFalse hany =>
        injection h with h1
        injection h1 with hl hdb
        subst hl
        refine ⟨rfl, by rw [← hdb], ?_⟩
        refine ⟨db.locks.filter (fun x => x.id != r.id), by rw [← hdb],
          List.filter_sublist _, ?_⟩
        intro x hx hname
        apply hany
        rw [List.any_eq_true]
        exact ⟨x, hx, by simp [hname]⟩
    case isFalse hexp => exact absurd h (by simp)
  case _ hfind =>
    injection h with h1
    injection h1 with hl hdb
    subst hl
    refine ⟨rfl, by rw [← hdb], ?_⟩
    refine ⟨db.locks, by rw [← hdb], List.Sublist.refl _, ?_⟩
    intro x hx hname
    rw [List.find?_eq_none] at hfind
    exact hfind x hx (by simp [hname])

theorem release_ok_shape {l : NonBlockingLock} {db : DB} {silent : Bool}
    {db' : DB} (h : l.release db silent = Except.ok db') :
    db' = ⟨db.locks.filter (fun r => r.id != l.id), db.nextId⟩ := by
  unfold NonBlockingLock.release at h
  split at h
  case isTrue hany =>
    injection h with h1
    exact h1.symm
  case isFalse hany =>
    split at h
    case isTrue hs =>
      injection h with h1
      have hall : ∀ r ∈ db.locks, (r.id != l.id) = true := by
        intro r hr
        simp only [bne_iff_ne, ne_eq]
        intro he
        exact hany (List.any_eq_true.mpr ⟨r, hr, by simp [he]⟩)
      rw [← h1, List.filter_eq_self.mpr hall]
    case isFalse hs => exact absurd h (by simp)

theorem release_error_iff {l : NonBlockingLock} {db : DB} {silent : Bool} :
    l.release db silent = Except.error LockError.NotLocked
      ↔ (∀ r ∈ db.locks, r.id ≠ l.id) ∧ silent = false := by
  unfold NonBlockingLock.release
  constructor
  · intro h
    split at h
    case isTrue hany => exact absurd h (by simp)
    case isFalse hany =>
      split at h
      case isTrue hs => exact absurd h (by simp)
      case isFalse hs =>
        refine ⟨?_, by simpa using hs⟩
        intro r hr he
        exact hany (List.any_eq_true.mpr ⟨r, hr, by simp [he]⟩)
  · rintro ⟨habs, rfl⟩
    rw [if_neg, if_neg]
    · simp
    · simp only [List.any_eq_true, not_exists]
      intro r
      rintro ⟨hr, hb⟩
      exact habs r hr (by simpa using hb)

theorem release_silent_ok (l : NonBlockingLock) (db : DB) :
    l.release db true
      = Except.ok ⟨db.locks.filter (fun r => r.id != l.id), db.nextId⟩ := by
  unfold NonBlockingLock.release
  split
  case isTrue hany => rfl
  case isFalse hany =>
    have hall : ∀ r ∈ db.locks, (r.id != l.id) = true := by
      intro r hr
      simp only [bne_iff_ne, ne_eq]
      intro he
      exact hany (List.any_eq_true.mpr ⟨r, hr, by simp [he]⟩)
    rw [if_pos rfl, List.filter_eq_self.mpr hall]

theorem exitScope_eq (l : NonBlockingLock) (db : DB) :
    l.exitScope db = ⟨db.locks.filter (fun r => r.id != l.id), db.nextId⟩ := by
  unfold NonBlockingLock.exitScope
  rw [release_silent_ok]

theorem renew_ok_shape {l : NonBlockingLock} {db : DB} {now : Nat}
    {l' : NonBlockingLock} {db' : DB}
    (h : l.renew db now = Except.ok (l', db')) :
    l' = { l with renewed_on := now, expires_on := now + l.max_age }
    ∧ l.is_expired now = false
    ∧ (∀ r ∈ db.locks, r.locked_object = l.locked_object → r.id = l.id)
    ∧ ((db'.locks = db.locks.map (fun r => if r.id == l.id then l' else r)
          ∧ db'.nextId = db.nextId ∧ ∃ r ∈ db.locks, r.id = l.id)
       ∨ ((∀ r ∈ db.locks, r.id ≠ l.id) ∧ db'.locks = l' :: db.locks
          ∧ db'.nextId = max db.nextId (l.id + 1))) := by
  unfold NonBlockingLock.renew at h
  dsimp only at h
  split at h
  case isTrue hexp => exact absurd h (by simp)
  case isFalse hexp =>
    split at h
    case isTrue hconf => exact absurd h (by simp)
    case isFalse hconf =>
      have hnoc : ∀ r ∈ db.locks, r.locked_object = l.locked_object → r.id = l.id := by
        intro r hr hname
        by_contra hne
        exact hconf (List.any_eq_true.mpr ⟨r, hr, by simp [hname, hne]⟩)
      split at h
      case isTrue hany =>
        injection h with h1
        injection h1 with hl hdb
        subst hl
        rcases List.any_eq_true.mp hany with ⟨r, hr, hb⟩
        exact ⟨rfl, by simpa using hexp, hnoc,
          Or.inl ⟨by rw [← hdb], by rw [← hdb], r, hr, by simpa using hb⟩⟩
      case isFalse hany =>
        injection h with h1
        injection h1 with hl hdb
        subst hl
        refine ⟨rfl, by simpa using hexp, hnoc, Or.inr ⟨?_, by rw [← hdb], by rw [← hdb]⟩⟩
        intro r hr he
        exact hany (List.any_eq_true.mpr ⟨r, hr, by simp [he]⟩)

theorem renew_lock_eq_renew {db : DB} {now i : Nat} {r : NonBlockingLock}
    (hfind : db.locks.find? (fun x => x.id == i) = some r) :
    renew_lock db now i = r.renew db now := by
  unfold renew_lock
  rw [hfind]

theorem namesOk_update {locks : List NonBlockingLock} {i : Nat}
    {l' : NonBlockingLock}
    (hnames : locks.Pairwise (fun a b => a.locked_object ≠ b.locked_object))
    (hids : locks.Pairwise (fun a b => a.id ≠ b.id))
    (hconf : ∀ r ∈ locks, r.locked_object = l'.locked_object → r.id = i) :
    (locks.map (fun r => if r.id == i then l' else r)).Pairwise
      (fun a b => a.locked_object ≠ b.locked_object) := by
  induction locks with
  | nil => simp
  | cons a tl ih =>
    rw [List.pairwise_cons] at hnames hids
    simp only [List.map_cons, List.pairwise_cons]
    refine ⟨?_, ih hnames.2 hids.2 (fun r hr => hconf r (List.mem_cons_of_mem _ hr))⟩
    intro b' hb'
    rcases List.mem_map.mp hb' with ⟨b, hb, rfl⟩
    have hab : a.id ≠ b.id := hids.1 b hb
    by_cases haid : a.id = i <;> by_cases hbid : b.id = i
    · exact absurd (haid.trans hbid.symm) hab
    · simp only [if_pos (show (a.id == i) = true by simp [haid]),
        if_neg (show ¬(b.id == i) = true by simp [hbid])]
      intro he
      exact hbid (hconf b (List.mem_cons_of_mem _ hb) he.symm)
    · simp only [if_neg (show ¬(a.id == i) = true by simp [haid]),
        if_pos (show (b.id == i) = true by simp [hbid])]
      intro he
      exact haid (hconf a (List.mem_cons_self _ _) he)
    · simp only [if_neg (show ¬(a.id == i) = true by simp [haid]),
        if_neg (show ¬(b.id == i) = true by simp [hbid])]
      exact hnames.1 b hb

theorem update_preserves_id {i : Nat} {l' : NonBlockingLock} (hl'id : l'.id = i)
    (r : NonBlockingLock) :
    (if r.id == i then l' else r).id = r.id := by
  by_cases h : r.id = i
  · simp [h, hl'id]
  · simp [h]

theorem wf_filter {db : DB} (hwf : db.wf) (p : NonBlockingLock → Bool) :
    DB.wf ⟨db.locks.filter p, db.nextId⟩ := by
  obtain ⟨hn, hi, hb, hr⟩ := hwf
  refine ⟨hn.sublist (List.filter_sublist _), hi.sublist (List.filter_sublist _),
    ?_, ?_⟩
  · intro r hr'
    exact hb r (List.mem_filter.mp hr').1
  · intro r hr'
    exact hr r (List.mem_filter.mp hr').1

theorem wf_acquire {db : DB} {now : Nat} {target : Target} {ma : Option Nat}
    {s : Settings} {l : NonBlockingLock} {db' : DB} (hwf : db.wf)
    (h : acquire_lock db now target ma s = Except.ok (l, db')) : db'.wf := by
  obtain ⟨hn, hi, hb, hr⟩ := hwf
  obtain ⟨hl, hnext, rest, hlocks, hsub, hrest⟩ := acquire_ok_shape h
  have hmem : ∀ x ∈ rest, x ∈ db.locks := fun x hx => hsub.subset hx
  refine ⟨?_, ?_, ?_, ?_⟩
  · rw [namesOk, hlocks, List.pairwise_cons]
    refine ⟨?_, hn.sublist hsub⟩
    intro x hx
    rw [hl]
    exact fun he => hrest x hx he.symm
  · rw [idsOk, hlocks, List.pairwise_cons]
    refine ⟨?_, hi.sublist hsub⟩
    intro x hx
    rw [hl]
    exact Nat.ne_of_gt (hb x (hmem x hx))
  · intro x hx
    rw [hlocks] at hx
    rw [hnext]
    rcases List.mem_cons.mp hx with rfl | hx'
    · rw [hl]
      exact Nat.lt_succ_self _
    · exact Nat.lt_succ_of_lt (hb x (hmem x hx'))
  · intro x hx
    rw [hlocks] at hx
    rcases List.mem_cons.mp hx with rfl | hx'
    · rw [hl]
    · exact hr x (hmem x hx')

theorem wf_handle_renew {l : NonBlockingLock} {db : DB} {now : Nat}
    {l' : NonBlockingLock} {db' : DB} (hwf : db.wf)
    (h : l.renew db now = Except.ok (l', db')) : db'.wf := by
  obtain ⟨hn, hi, hb, hr⟩ := hwf
  obtain ⟨hl', _hexp, hnoc, hcase⟩ := renew_ok_shape h
  have hl'id : l'.id = l.id := by rw [hl']
  have hl'name : l'.locked_object = l.locked_object := by rw [hl']
  rcases hcase with ⟨hlocks, hnext, _⟩ | ⟨habs, hlocks, hnext⟩
  · refine ⟨?_, ?_, ?_, ?_⟩
    · rw [namesOk, hlocks]
      exact namesOk_update hn hi (fun r h1 h2 => hnoc r h1 (hl'name ▸ h2))
    · rw [idsOk, hlocks, List.pairwise_map]
      exact hi.imp (fun {a b} hab => by
        rw [update_preserves_id hl'id a, update_preserves_id hl'id b]
        exact hab)
    · intro x hx
      rw [hlocks] at hx
      rcases List.mem_map.mp hx with ⟨y, hy, rfl⟩
      rw [hnext, update_preserves_id hl'id y]
      exact hb y hy
    · intro x hx
      rw [hlocks] at hx
      rcases List.mem_map.mp hx with ⟨y, hy, rfl⟩
      by_cases hyid : y.id = l.id
      · simp only [if_pos (show (y.id == l.id) = true by simp [hyid])]
        rw [hl']
      · simp only [if_neg (show ¬(y.id == l.id) = true by simp [hyid])]
        exact hr y hy
  · refine ⟨?_, ?_, ?_, ?_⟩
    · rw [namesOk, hlocks, List.pairwise_cons]
      refine ⟨?_, hn⟩
      intro x hx he
      rw [hl'name] at he
      exact habs x hx (hnoc x hx he.symm)
    · rw [idsOk, hlocks, List.pairwise_cons]
      refine ⟨?_, hi⟩
      intro x hx
      rw [hl'id]
      exact fun he => habs x hx he.symm
    · intro x hx
      rw [hlocks] at hx
      rw [hnext]
      rcases List.mem_cons.mp hx with rfl | hx'
      · rw [hl'id]
        exact lt_max_of_lt_right (Nat.lt_succ_self _)
      · exact lt_max_of_lt_left (hb x hx')
    · intro x hx
      rw [hlocks] at hx
      rcases List.mem_cons.mp hx with rfl | hx'
      · rw [hl']
      · exact hr x hx'

theorem wf_step {db db' : DB} (hwf : db.wf) (h : Step db db') : db'.wf := by
  cases h with
  | acquire h1 => exact wf_acquire hwf h1
  | renewManager h1 =>
    unfold renew_lock at h1
    split at h1
    case _ => exact absurd h1 (by simp)
    case _ r hfind => exact wf_handle_renew hwf h1
  | renewHandle h1 => exact wf_handle_renew hwf h1
  | releaseHandle h1 =>
    rw [release_ok_shape h1]
    exact wf_filter hwf _
  | releaseManager h1 =>
    unfold release_lock at h1
    split at h1
    case _ => exact absurd h1 (by simp)
    case _ r hfind =>
      rw [release_ok_shape h1]
      exact wf_filter hwf _
  | cleanup =>
    exact wf_filter hwf _

theorem reachable_wf {db : DB} (h : Reachable db) : db.wf := by
  induction h with
  | init =>
    refine ⟨List.Pairwise.nil, List.Pairwise.nil, ?_, ?_⟩ <;> intro r hr <;>
      exact absurd hr (List.not_mem_nil r)
  | step _ hstep ih => exact wf_step ih hstep

theorem namesOk_unique {db : DB} (hn : namesOk db) {a b : NonBlockingLock}
    (ha : a ∈ db.locks) (hb : b ∈ db.locks)
    (hname : a.locked_object = b.locked_object) : a = b := by
  by_contra hne
  have hsymm : Symmetric (fun a b : NonBlockingLock => a.locked_object ≠ b.locked_object) := by
    intro x y h he
    exact h he.symm
  exact List.Pairwise.forall hsymm hn ha hb hne hname

theorem renew_expired {l : NonBlockingLock} {db : DB} {now : Nat}
    (h : l.is_expired now = true) :
    l.renew db now = Except.error LockError.Expired := by
  unfold NonBlockingLock.renew
  rw [if_pos h]

theorem renew_error_cases {l : NonBlockingLock} {db : DB} {now : Nat}
    {e : LockError} (h : l.renew db now = Except.error e) :
    (e = LockError.Expired ∧ l.is_expired now = true)
    ∨ (e = LockError.RenewalError ∧ l.is_expired now = false
        ∧ ∃ r ∈ db.locks, r.locked_object = l.locked_object ∧ r.id ≠ l.id) := by
  unfold NonBlockingLock.renew at h
  dsimp only at h
  split at h
  case isTrue hexp =>
    injection h with h1
    exact Or.inl ⟨h1.symm, hexp⟩
  case isFalse hexp =>
    split at h
    case isTrue hconf =>
      injection h with h1
      rcases List.any_eq_true.mp hconf with ⟨r, hr, hb⟩
      rw [Bool.and_eq_true] at hb
      exact Or.inr ⟨h1.symm, by simpa using hexp, r, hr, by simpa using hb.1,
        by simpa using hb.2⟩
    case isFalse hconf =>
      split at h <;> exact absurd h (by simp)

theorem renew_ok_of {l : NonBlockingLock} {db : DB} {now : Nat}
    (hexp : l.is_expired now = false)
    (hconf : ∀ r ∈ db.locks, r.locked_object = l.locked_object → r.id = l.id) :
    ∃ l' db', l.renew db now = Except.ok (l', db') := by
  unfold NonBlockingLock.renew
  dsimp only
  have hc : ¬ (db.locks.any
      (fun r => r.locked_object == l.locked_object && r.id != l.id) = true) := by
    rw [List.any_eq_true]
    rintro ⟨r, hr, hb⟩
    rw [Bool.and_eq_true] at hb
    exact (by simpa using hb.2 : r.id ≠ l.id) (hconf r hr (by simpa using hb.1))
  rw [if_neg (by simp [hexp]), if_neg hc]
  by_cases hany : db.locks.any (fun r => r.id == l.id) = true
  · rw [if_pos hany]
    exact ⟨_, _, rfl⟩
  · rw [if_neg hany]
    exact ⟨_, _, rfl⟩

/-- C1, counterexample: a lock acquired with max_age = 0 is NOT
immediately expired.  Acquiring the target "u" on an empty store at
time 0 with max_age = 0 succeeds, yet one hour later the lease is still
not expired, the target is still locked, and cleanup does not delete
the record — src/locking/tests.py test_expired (lines 124-133) and
test_clean (lines 147-155) assert exactly this behaviour, so the claim
that a max_age of 0 yields an immediately-expired, reclaimable lease is
false on the code. -/
theorem C1_counterexample :
    acquire_lock ⟨[], 0⟩ 0 (Target.lockName "u") (some 0) ⟨none⟩
      = Except.ok (⟨0, "u", 0, 0, 0, 0⟩, ⟨[⟨0, "u", 0, 0, 0, 0⟩], 1⟩)
    ∧ NonBlockingLock.is_expired ⟨0, "u", 0, 0, 0, 0⟩ 3600 = false
    ∧ is_locked ⟨[⟨0, "u", 0, 0, 0, 0⟩], 1⟩ 3600 (Target.lockName "u") = true
    ∧ clean_expired_locks ⟨[⟨0, "u", 0, 0, 0, 0⟩], 1⟩ 3600
        = ⟨[⟨0, "u", 0, 0, 0, 0⟩], 1⟩ := by
  refine ⟨rfl, rfl, rfl, rfl⟩

/-- C1 (amended): for every target, a lock acquired with max_age = 0
succeeds whenever acquisition is possible at all, and the lease is
never expired: at every instant, is_expired is false, is_locked of the
target is true, and the record is never deleted by cleanup (the lease
is effectively held forever, until explicitly released). -/
theorem C1_max_age_zero_never_expires {db : DB} {now : Nat} {target : Target}
    {s : Settings} {l : NonBlockingLock} {db' : DB}
    (h : acquire_lock db now target (some 0) s = Except.ok (l, db')) (t : Nat) :
    l.is_expired t = false
    ∧ is_locked db' t target = true
    ∧ l ∈ (clean_expired_locks db' t).locks := by
  obtain ⟨hl, _hnext, rest, hlocks, _hsub, _hrest⟩ := acquire_ok_shape h
  have hexp : l.is_expired t = false := by
    unfold NonBlockingLock.is_expired
    rw [hl]
    simp
  refine ⟨hexp, ?_, ?_⟩
  · unfold is_locked
    rw [List.any_eq_true]
    refine ⟨l, by rw [hlocks]; exact List.mem_cons_self _ _, ?_⟩
    rw [hexp, hl]
    simp
  · unfold clean_expired_locks
    rw [List.mem_filter]
    exact ⟨by rw [hlocks]; exact List.mem_cons_self _ _, by rw [hexp]; rfl⟩

/-- C1 (amended), witness at a concrete input: acquiring "u" at time 0
with max_age = 0 yields a lease that at time 3600 is not expired, keeps
the target locked, and survives cleanup. -/
theorem C1_witness :
    NonBlockingLock.is_expired ⟨0, "u", 0, 0, 0, 0⟩ 3600 = false
    ∧ is_locked ⟨[⟨0, "u", 0, 0, 0, 0⟩], 1⟩ 3600 (Target.lockName "u") = true
    ∧ (⟨0, "u", 0, 0, 0, 0⟩ : NonBlockingLock)
        ∈ (clean_expired_locks ⟨[⟨0, "u", 0, 0, 0, 0⟩], 1⟩ 3600).locks :=
  @C1_max_age_zero_never_expires ⟨[], 0⟩ 0 (Target.lockName "u") ⟨none⟩
    ⟨0, "u", 0, 0, 0, 0⟩ ⟨[⟨0, "u", 0, 0, 0, 0⟩], 1⟩ rfl 3600

/-- C2: the failure outcomes of renew are exactly as claimed.  Through
the manager by id: NonexistentLock iff no row carries the id; with a
row found, Expired iff that row's lease has lapsed, and otherwise (in a
well-formed store) renew succeeds; no other error is reachable by id.
Through the renewing holder's handle: RenewalError iff the handle is
not expired and its locked_object is now occupied by a row under a
different id. -/
theorem C2_renew_outcomes (db : DB) (now i : Nat) :
    (renew_lock db now i = Except.error LockError.NonexistentLock
        ↔ ∀ r ∈ db.locks, r.id ≠ i)
    ∧ (∀ r, db.locks.find? (fun x => x.id == i) = some r →
        ((renew_lock db now i = Except.error LockError.Expired
            ↔ r.is_expired now = true)
          ∧ (namesOk db → r.is_expired now = false →
              ∃ l' db', renew_lock db now i = Except.ok (l', db'))))
    ∧ (∀ e, namesOk db → renew_lock db now i = Except.error e →
        e = LockError.NonexistentLock ∨ e = LockError.Expired)
    ∧ (∀ l : NonBlockingLock,
        l.renew db now = Except.error LockError.RenewalError
          ↔ l.is_expired now = false
            ∧ ∃ r ∈ db.locks, r.locked_object = l.locked_object ∧ r.id ≠ l.id) := by
  have hconf_of : ∀ r : NonBlockingLock, namesOk db → r ∈ db.locks →
      ∀ x ∈ db.locks, x.locked_object = r.locked_object → x.id = r.id := by
    intro r hn hr x hx hname
    rw [namesOk_unique hn hx hr hname]
  refine ⟨?_, ?_, ?_, ?_⟩
  · unfold renew_lock
    cases hfind : db.locks.find? (fun r => r.id == i) with
    | none =>
      simp only [true_iff]
      rw [List.find?_eq_none] at hfind
      intro r hr he
      exact hfind r hr (by simp [he])
    | some r =>
      constructor
      · intro h
        rcases renew_error_cases h with ⟨h1, _⟩ | ⟨h1, _⟩ <;> exact absurd h1 (by simp)
      · intro hall
        exact absurd (by simpa using List.find?_some hfind)
          (hall r (List.mem_of_find?_eq_some hfind))
  · intro r hfind
    rw [renew_lock_eq_renew hfind]
    constructor
    · constructor
      · intro h
        rcases renew_error_cases h with ⟨_, h2⟩ | ⟨h1, _⟩
        · exact h2
        · exact absurd h1 (by simp)
      · intro hexp
        exact renew_expired hexp
    · intro hn hexp
      exact renew_ok_of hexp (hconf_of r hn (List.mem_of_find?_eq_some hfind))
  · intro e hn h
    unfold renew_lock at h
    cases hfind : db.locks.find? (fun r => r.id == i) with
    | none =>
      rw [hfind] at h
      injection h with h1
      exact Or.inl h1.symm
    | some r =>
      rw [hfind] at h
      rcases renew_error_cases h with ⟨h1, _⟩ | ⟨_, _, x, hx, hname, hid⟩
      · exact Or.inr h1
      · exact absurd (congrArg NonBlockingLock.id
          (namesOk_unique hn hx (List.mem_of_find?_eq_some hfind) hname)) hid
  · intro l
    constructor
    · intro h
      rcases renew_error_cases h with ⟨h1, _⟩ | ⟨_, h2, h3⟩
      · exact absurd h1 (by simp)
      · exact ⟨h2, h3⟩
    · rintro ⟨hexp, r, hr, hname, hid⟩
      unfold NonBlockingLock.renew
      rw [if_neg (by simp [hexp]), if_pos]
      rw [List.any_eq_true]
      exact ⟨r, hr, by simp [hname, hid]⟩

/-- C2, witness at concrete inputs: on a store holding the single row
(id 0, name "u", lease of 1 second taken at time 0), evaluated at time
5: renewing id 9 fails with NonexistentLock, renewing id 0 fails with
Expired, and a stale handle (id 3, name "u", no expiry) fails with
RenewalError. -/
theorem C2_witness :
    renew_lock ⟨[⟨0, "u", 0, 0, 1, 1⟩], 1⟩ 5 9
        = Except.error LockError.NonexistentLock
    ∧ renew_lock ⟨[⟨0, "u", 0, 0, 1, 1⟩], 1⟩ 5 0
        = Except.error LockError.Expired
    ∧ NonBlockingLock.renew ⟨3, "u", 0, 0, 0, 0⟩ ⟨[⟨0, "u", 0, 0, 1, 1⟩], 1⟩ 5
        = Except.error LockError.RenewalError :=
  ⟨(C2_renew_outcomes ⟨[⟨0, "u", 0, 0, 1, 1⟩], 1⟩ 5 9).1.mpr (by decide),
   ((C2_renew_outcomes ⟨[⟨0, "u", 0, 0, 1, 1⟩], 1⟩ 5 0).2.1
      ⟨0, "u", 0, 0, 1, 1⟩ rfl).1.mpr (by decide),
   ((C2_renew_outcomes ⟨[⟨0, "u", 0, 0, 1, 1⟩], 1⟩ 5 0).2.2.2
      ⟨3, "u", 0, 0, 0, 0⟩).mpr ⟨by decide, ⟨0, "u", 0, 0, 1, 1⟩,
        by decide, by decide, by decide⟩⟩

theorem mem_cleanup_iff {db : DB} {now : Nat} {r : NonBlockingLock}
    (hr : r ∈ db.locks) :
    r ∈ (clean_expired_locks db now).locks ↔ r.is_expired now = false := by
  unfold clean_expired_locks
  simp [List.mem_filter, hr]

/-- C3: cleanup deletes exactly the rows satisfying the expiry
predicate.  A row acquired without an explicit max_age while
LOCK_MAX_AGE = g > 0 is configured is deleted by a later cleanup
exactly once its renewed_on is g or more seconds in the past (kept iff
t < renewed_on + g, the boundary being inclusive on the deletion side,
as src/locking/tests.py test_implicit_cleaning_set_to_nonzero pins);
with LOCK_MAX_AGE unset or 0, a row acquired without a max_age is never
deleted by cleanup, at any later time. -/
theorem C3_cleanup_policy :
    (∀ (db : DB) (now : Nat) (r : NonBlockingLock), r ∈ db.locks →
        (r ∈ (clean_expired_locks db now).locks ↔ r.is_expired now = false))
    ∧ (∀ (db : DB) (now : Nat) (target : Target) (g : Nat) (s : Settings)
        (l : NonBlockingLock) (db' : DB), s.lock_max_age = some g → 0 < g →
        acquire_lock db now target none s = Except.ok (l, db') →
        ∀ t, (l ∈ (clean_expired_locks db' t).locks ↔ t < l.renewed_on + g))
    ∧ (∀ (db : DB) (now : Nat) (target : Target) (s : Settings)
        (l : NonBlockingLock) (db' : DB),
        s.lock_max_age = none ∨ s.lock_max_age = some 0 →
        acquire_lock db now target none s = Except.ok (l, db') →
        ∀ t, l ∈ (clean_expired_locks db' t).locks) := by
  refine ⟨fun db now r hr => mem_cleanup_iff hr, ?_, ?_⟩
  · intro db now target g s l db' hs hg h t
    obtain ⟨hl, _hnext, rest, hlocks, _hsub, _hrest⟩ := acquire_ok_shape h
    have hmem : l ∈ db'.locks := by
      rw [hlocks]
      exact List.mem_cons_self _ _
    rw [mem_cleanup_iff hmem, hl]
    unfold NonBlockingLock.is_expired
    have hgne : g ≠ 0 := Nat.pos_iff_ne_zero.mp hg
    simp only [hs, Option.getD_none, Option.getD_some]
    constructor
    · intro hb
      by_contra hle
      push_neg at hle
      simp [hgne, hle] at hb
    · intro hlt
      have hnle : ¬ (now + g ≤ t) := by omega
      simp [hnle]
  · intro db now target s l db' hs h t
    obtain ⟨hl, _hnext, rest, hlocks, _hsub, _hrest⟩ := acquire_ok_shape h
    have hmem : l ∈ db'.locks := by
      rw [hlocks]
      exact List.mem_cons_self _ _
    rw [mem_cleanup_iff hmem, hl]
    unfold NonBlockingLock.is_expired
    rcases hs with hs | hs <;> simp [hs]

/-- C3, witness at concrete inputs: cleanup of a store holding the
expired row (id 0, lease 1 second taken at time 0) at time 5 keeps that
row iff it is unexpired (it is not); with LOCK_MAX_AGE = 1, a lock
acquired with no max_age at time 0 is kept by cleanup at time t iff
t < 1; with LOCK_MAX_AGE unset, such a lock survives cleanup even
829440000 seconds (9600 days) later. -/
theorem C3_witness :
    ((⟨0, "u", 0, 0, 1, 1⟩ : NonBlockingLock)
        ∈ (clean_expired_locks ⟨[⟨0, "u", 0, 0, 1, 1⟩], 1⟩ 5).locks
      ↔ NonBlockingLock.is_expired ⟨0, "u", 0, 0, 1, 1⟩ 5 = false)
    ∧ ((⟨0, "u", 0, 0, 1, 1⟩ : NonBlockingLock)
        ∈ (clean_expired_locks ⟨[⟨0, "u", 0, 0, 1, 1⟩], 1⟩ 1).locks ↔ 1 < 0 + 1)
    ∧ (⟨0, "u", 0, 0, 0, 0⟩ : NonBlockingLock)
        ∈ (clean_expired_locks ⟨[⟨0, "u", 0, 0, 0, 0⟩], 1⟩ 829440000).locks :=
  ⟨C3_cleanup_policy.1 ⟨[⟨0, "u", 0, 0, 1, 1⟩], 1⟩ 5 ⟨0, "u", 0, 0, 1, 1⟩
      (List.mem_cons_self _ _),
   (C3_cleanup_policy.2.1 ⟨[], 0⟩ 0 (Target.lockName "u") 1 ⟨some 1⟩
      ⟨0, "u", 0, 0, 1, 1⟩ ⟨[⟨0, "u", 0, 0, 1, 1⟩], 1⟩ rfl (by decide) rfl 1),
   (C3_cleanup_policy.2.2 ⟨[], 0⟩ 0 (Target.lockName "u") ⟨none⟩
      ⟨0, "u", 0, 0, 0, 0⟩ ⟨[⟨0, "u", 0, 0, 0, 0⟩], 1⟩ (Or.inl rfl) rfl
      829440000)⟩

/-- C4, counterexample: releasing a nonexistent id through the manager
is NOT a silent no-op by default — release_lock on an empty store fails
with NotLocked (src/locking/tests.py test_release_nonexistinglock,
lines 82-84, asserts exactly this), so the claimed silent default does
not hold for the manager-by-id invocation path. -/
theorem C4_counterexample :
    release_lock ⟨[], 0⟩ 7 = Except.error LockError.NotLocked := rfl

/-- C4 (amended): through the handle, releasing with no matching row is
a no-op under the silent default and fails with NotLocked when silent
is false; a matching row is deleted unconditionally, regardless of
expiry state; through the manager by id, release_lock fails with
NotLocked whenever no row carries the id (regardless of any silent
default) and deletes the row unconditionally when one does. -/
theorem C4_release_semantics :
    (∀ (l : NonBlockingLock) (db : DB), (∀ r ∈ db.locks, r.id ≠ l.id) →
        l.release db true = Except.ok db)
    ∧ (∀ (l : NonBlockingLock) (db : DB), (∀ r ∈ db.locks, r.id ≠ l.id) →
        l.release db false = Except.error LockError.NotLocked)
    ∧ (∀ (l : NonBlockingLock) (db : DB) (silent : Bool),
        (∃ r ∈ db.locks, r.id = l.id) →
        l.release db silent
          = Except.ok ⟨db.locks.filter (fun r => r.id != l.id), db.nextId⟩)
    ∧ (∀ (db : DB) (i : Nat),
        release_lock db i = Except.error LockError.NotLocked
          ↔ ∀ r ∈ db.locks, r.id ≠ i)
    ∧ (∀ (db : DB) (i : Nat), (∃ r ∈ db.locks, r.id = i) →
        release_lock db i
          = Except.ok ⟨db.locks.filter (fun r => r.id != i), db.nextId⟩) := by
  have hany_false : ∀ (l : NonBlockingLock) (db : DB),
      (∀ r ∈ db.locks, r.id ≠ l.id) →
      ¬ (db.locks.any (fun r => r.id == l.id) = true) := by
    intro l db habs hc
    rcases List.any_eq_true.mp hc with ⟨r, hr, hb⟩
    exact habs r hr (by simpa using hb)
  refine ⟨?_, ?_, ?_, ?_, ?_⟩
  · intro l db habs
    unfold NonBlockingLock.release
    rw [if_neg (hany_false l db habs), if_pos rfl]
  · intro l db habs
    unfold NonBlockingLock.release
    rw [if_neg (hany_false l db habs), if_neg (by simp)]
  · rintro l db silent ⟨r, hr, he⟩
    unfold NonBlockingLock.release
    rw [if_pos (List.any_eq_true.mpr ⟨r, hr, by simp [he]⟩)]
  · intro db i
    unfold release_lock
    cases hfind : db.locks.find? (fun r => r.id == i) with
    | none =>
      simp only [true_iff]
      rw [List.find?_eq_none] at hfind
      intro r hr he
      exact hfind r hr (by simp [he])
    | some r =>
      constructor
      · intro h
        rcases (release_error_iff.mp h) with ⟨_, hfalse⟩
        exact absurd hfalse (by simp)
      · intro hall
        exact absurd (by simpa using List.find?_some hfind)
          (hall r (List.mem_of_find?_eq_some hfind))
  · rintro db i ⟨r, hr, he⟩
    unfold release_lock
    cases hfind : db.locks.find? (fun x => x.id == i) with
    | none =>
      rw [List.find?_eq_none] at hfind
      exact absurd (by simp [he]) (hfind r hr)
    | some x =>
      have hxi : x.id = i := by simpa using List.find?_some hfind
      show x.release db true = _
      rw [release_silent_ok]
      simp only [hxi]

/-- C4 (amended), witness at concrete inputs: a handle whose row is
absent releases silently as a no-op and fails with NotLocked when
silent is false; a handle whose row exists but is already expired (id
0, lease 1 second, evaluated context irrelevant) still deletes the row;
the manager deletes an existing row by id. -/
theorem C4_witness :
    NonBlockingLock.release ⟨0, "u", 0, 0, 0, 0⟩ ⟨[], 3⟩ true = Except.ok ⟨[], 3⟩
    ∧ NonBlockingLock.release ⟨0, "u", 0, 0, 0, 0⟩ ⟨[], 3⟩ false
        = Except.error LockError.NotLocked
    ∧ NonBlockingLock.release ⟨0, "u", 0, 0, 1, 1⟩ ⟨[⟨0, "u", 0, 0, 1, 1⟩], 1⟩
        true = Except.ok ⟨[], 1⟩
    ∧ release_lock ⟨[⟨0, "u", 0, 0, 1, 1⟩], 1⟩ 0 = Except.ok ⟨[], 1⟩ :=
  ⟨C4_release_semantics.1 ⟨0, "u", 0, 0, 0, 0⟩ ⟨[], 3⟩ (by simp),
   C4_release_semantics.2.1 ⟨0, "u", 0, 0, 0, 0⟩ ⟨[], 3⟩ (by simp),
   (C4_release_semantics.2.2.1 ⟨0, "u", 0, 0, 1, 1⟩ ⟨[⟨0, "u", 0, 0, 1, 1⟩], 1⟩
      true ⟨⟨0, "u", 0, 0, 1, 1⟩, List.mem_cons_self _ _, rfl⟩).trans rfl,
   (C4_release_semantics.2.2.2.2 ⟨[⟨0, "u", 0, 0, 1, 1⟩], 1⟩ 0
      ⟨⟨0, "u", 0, 0, 1, 1⟩, List.mem_cons_self _ _, rfl⟩).trans rfl⟩

/-- C5: acquiring a target whose record exists and is not expired fails
with AlreadyLocked (the store is untouched — a failing acquire returns
no new state by construction) and leaves is_locked true; acquiring a
target all of whose records are expired (or absent) succeeds with a
fresh record: new id never equal to any existing row's id, created_on
set to the acquisition instant, and every row for the target in the new
store is the fresh record (any expired record was superseded). -/
theorem C5_acquire_semantics :
    (∀ (db : DB) (now : Nat) (target : Target) (ma : Option Nat) (s : Settings)
        (r : NonBlockingLock),
        db.locks.find? (fun x => x.locked_object == _get_lock_name target)
          = some r →
        r.is_expired now = false →
        acquire_lock db now target ma s = Except.error LockError.AlreadyLocked
          ∧ is_locked db now target = true)
    ∧ (∀ (db : DB) (now : Nat) (target : Target) (ma : Option Nat) (s : Settings),
        namesOk db → idsBound db →
        (∀ r ∈ db.locks, r.locked_object = _get_lock_name target →
          r.is_expired now = true) →
        ∃ l db', acquire_lock db now target ma s = Except.ok (l, db')
          ∧ l.id = db.nextId ∧ l.created_on = now
          ∧ l.locked_object = _get_lock_name target
          ∧ (∀ r ∈ db.locks, r.id ≠ l.id)
          ∧ (∀ x ∈ db'.locks, x.locked_object = _get_lock_name target → x = l)) := by
  constructor
  · intro db now target ma s r hfind hexp
    constructor
    · unfold acquire_lock
      dsimp only
      rw [hfind]
      dsimp only
      rw [if_neg (by simp [hexp])]
    · unfold is_locked
      rw [List.any_eq_true]
      exact ⟨r, List.mem_of_find?_eq_some hfind,
        by simp [hexp, (by simpa using List.find?_some hfind :
          r.locked_object = _get_lock_name target)]⟩
  · intro db now target ma s hn hb hall
    have hsucc : ∃ p : NonBlockingLock × DB,
        acquire_lock db now target ma s = Except.ok p := by
      unfold acquire_lock
      dsimp only
      cases hfind : db.locks.find?
          (fun r => r.locked_object == _get_lock_name target) with
      | none => exact ⟨_, rfl⟩
      | some r =>
        have hrname : r.locked_object = _get_lock_name target := by
          simpa using List.find?_some hfind
        have hrexp : r.is_expired now = true :=
          hall r (List.mem_of_find?_eq_some hfind) hrname
        dsimp only
        rw [if_pos hrexp, if_neg ?_]
        · exact ⟨_, rfl⟩
        · rw [List.any_eq_true]
          rintro ⟨x, hx, hxb⟩
          have hx' := List.mem_filter.mp hx
          have hxname : x.locked_object = _get_lock_name target := by
            simpa using hxb
          have hxr : x = r := namesOk_unique hn hx'.1
            (List.mem_of_find?_eq_some hfind) (hxname.trans hrname.symm)
          rw [hxr] at hx'
          simpa using hx'.2
    obtain ⟨⟨l, db'⟩, heq⟩ := hsucc
    obtain ⟨hl, _hnext, rest, hlocks, _hsub, hrest⟩ := acquire_ok_shape heq
    refine ⟨l, db', heq, by rw [hl], by rw [hl], by rw [hl], ?_, ?_⟩
    · intro r hr
      rw [hl]
      exact Nat.ne_of_lt (hb r hr)
    · intro x hx hxname
      rw [hlocks] at hx
      rcases List.mem_cons.mp hx with rfl | hx'
      · rfl
      · exact absurd hxname (hrest x hx')

/-- C5, witness at concrete inputs: with the unexpired row (id 0, name
"u", no expiry) present at time 5, re-acquiring "u" fails with
AlreadyLocked while is_locked stays true; on a store holding only the
expired row (id 0, lease 1 second from time 0, nextId 1) at time 5,
acquiring "u" succeeds with a superseding fresh record. -/
theorem C5_witness :
    (acquire_lock ⟨[⟨0, "u", 0, 0, 0, 0⟩], 1⟩ 5 (Target.lockName "u") none
        ⟨none⟩ = Except.error LockError.AlreadyLocked
      ∧ is_locked ⟨[⟨0, "u", 0, 0, 0, 0⟩], 1⟩ 5 (Target.lockName "u") = true)
    ∧ ∃ l db', acquire_lock ⟨[⟨0, "u", 0, 0, 1, 1⟩], 1⟩ 5 (Target.lockName "u")
          none ⟨none⟩ = Except.ok (l, db')
        ∧ l.id = 1 ∧ l.created_on = 5
        ∧ l.locked_object = _get_lock_name (Target.lockName "u")
        ∧ (∀ r ∈ ([⟨0, "u", 0, 0, 1, 1⟩] : List NonBlockingLock), r.id ≠ l.id)
        ∧ (∀ x ∈ db'.locks,
            x.locked_object = _get_lock_name (Target.lockName "u") → x = l) :=
  ⟨C5_acquire_semantics.1 ⟨[⟨0, "u", 0, 0, 0, 0⟩], 1⟩ 5 (Target.lockName "u")
      none ⟨none⟩ ⟨0, "u", 0, 0, 0, 0⟩ rfl (by decide),
   C5_acquire_semantics.2 ⟨[⟨0, "u", 0, 0, 1, 1⟩], 1⟩ 5 (Target.lockName "u")
      none ⟨none⟩ (List.pairwise_singleton _ _)
      (by
        intro r hr
        rw [List.mem_singleton.mp hr]
        decide)
      (by
        intro r hr _
        rw [List.mem_singleton.mp hr]
        decide)⟩

/-- C6: in every state reachable by any sequence of acquire, renew,
release and cleanup operations, at most one non-expired record exists
for any locked_object: two member records for the same locked_object
that are both unexpired at any instant are the same record.  (The
acquire protocol in fact maintains the stronger invariant that no two
rows share a locked_object at all; see reachable_wf.) -/
theorem C6_at_most_one_live {db : DB} (h : Reachable db) (now : Nat)
    {r1 r2 : NonBlockingLock} (h1 : r1 ∈ db.locks) (h2 : r2 ∈ db.locks)
    (hname : r1.locked_object = r2.locked_object)
    (_he1 : r1.is_expired now = false) (_he2 : r2.is_expired now = false) :
    r1 = r2 :=
  namesOk_unique (reachable_wf h).1 h1 h2 hname

/-- C6, witness at a concrete input: the state holding the single
5-second lease on "u" taken at time 0 is reachable (empty store, then
one acquire), and the theorem applies to it at time 2. -/
theorem C6_witness :
    (⟨0, "u", 0, 0, 5, 5⟩ : NonBlockingLock) = ⟨0, "u", 0, 0, 5, 5⟩ :=
  have hreach : Reachable ⟨[⟨0, "u", 0, 0, 5, 5⟩], 1⟩ :=
    Reachable.step Reachable.init
      (@Step.acquire ⟨[], 0⟩ 0 (Target.lockName "u") (some 5) ⟨none⟩
        ⟨0, "u", 0, 0, 5, 5⟩ ⟨[⟨0, "u", 0, 0, 5, 5⟩], 1⟩ rfl)
  C6_at_most_one_live hreach 2 (List.mem_cons_self _ _) (List.mem_cons_self _ _)
    rfl (by decide) (by decide)

/-- C7: a successful renew through the manager at an instant strictly
later than the row's renewed_on, on a well-formed unexpired row with
positive max_age, strictly increases expires_on, keeps id and
locked_object unchanged, and updates the row in place: the new store
has the same number of rows, contains the updated record, and every row
is either the updated record or an old row. -/
theorem C7_renew_monotone {db : DB} {now i : Nat} {r : NonBlockingLock}
    (hfind : db.locks.find? (fun x => x.id == i) = some r)
    (hrec : r.expires_on = r.renewed_on + r.max_age)
    (_hma : 0 < r.max_age) (hlater : r.renewed_on < now)
    (hexp : r.is_expired now = false) (hn : namesOk db) :
    ∃ l' db', renew_lock db now i = Except.ok (l', db')
      ∧ l'.id = r.id ∧ l'.locked_object = r.locked_object
      ∧ r.expires_on < l'.expires_on
      ∧ db'.locks.length = db.locks.length
      ∧ l' ∈ db'.locks
      ∧ ∀ x ∈ db'.locks, x = l' ∨ x ∈ db.locks := by
  have hmem : r ∈ db.locks := List.mem_of_find?_eq_some hfind
  have hconf : ∀ x ∈ db.locks, x.locked_object = r.locked_object → x.id = r.id := by
    intro x hx hxname
    rw [namesOk_unique hn hx hmem hxname]
  rw [renew_lock_eq_renew hfind]
  obtain ⟨l', db', heq⟩ := renew_ok_of hexp hconf
  obtain ⟨hl', _, _, hcase⟩ := renew_ok_shape heq
  rcases hcase with ⟨hlocks, _hnext, _⟩ | ⟨habs, _, _⟩
  · refine ⟨l', db', heq, by rw [hl'], by rw [hl'], ?_, ?_, ?_, ?_⟩
    · rw [hl', hrec]
      exact Nat.add_lt_add_right hlater _
    · rw [hlocks, List.length_map]
    · rw [hlocks]
      exact List.mem_map.mpr ⟨r, hmem, by simp⟩
    · intro x hx
      rw [hlocks] at hx
      rcases List.mem_map.mp hx with ⟨y, hy, rfl⟩
      by_cases hyid : y.id = r.id
      · exact Or.inl (by simp [hyid])
      · exact Or.inr (by simp [hyid]; exact hy)
  · exact absurd rfl (habs r hmem)

/-- C7, witness at a concrete input: the 10-second lease on "u" taken
at time 0, renewed through the manager at time 5, yields an in-place
update with strictly larger expires_on (the scenario of spec section
8: expires_on goes from 10 to 15). -/
theorem C7_witness :
    ∃ l' db', renew_lock ⟨[⟨0, "u", 0, 0, 10, 10⟩], 1⟩ 5 0
        = Except.ok (l', db')
      ∧ l'.id = (⟨0, "u", 0, 0, 10, 10⟩ : NonBlockingLock).id
      ∧ l'.locked_object
          = (⟨0, "u", 0, 0, 10, 10⟩ : NonBlockingLock).locked_object
      ∧ (⟨0, "u", 0, 0, 10, 10⟩ : NonBlockingLock).expires_on < l'.expires_on
      ∧ db'.locks.length = ([⟨0, "u", 0, 0, 10, 10⟩] : List NonBlockingLock).length
      ∧ l' ∈ db'.locks
      ∧ ∀ x ∈ db'.locks, x = l' ∨ x ∈ ([⟨0, "u", 0, 0, 10, 10⟩] : List NonBlockingLock) :=
  @C7_renew_monotone ⟨[⟨0, "u", 0, 0, 10, 10⟩], 1⟩ 5 0 ⟨0, "u", 0, 0, 10, 10⟩
    rfl rfl (by decide) (by decide) (by decide) (List.pairwise_singleton _ _)

/-- C8: a lock acquired with finite (positive) max_age N is expired
exactly at the instants t with renewed_on + N <= t, and its target is
locked in the resulting store exactly at the instants strictly before
renewed_on + N; in general is_locked is true iff a record exists for
the resolved name and is not expired. -/
theorem C8_expiry_boundary :
    (∀ (db : DB) (now : Nat) (target : Target) (N : Nat) (s : Settings)
        (l : NonBlockingLock) (db' : DB), 0 < N →
        acquire_lock db now target (some N) s = Except.ok (l, db') →
        ∀ t, (l.is_expired t = true ↔ l.renewed_on + N ≤ t)
          ∧ (is_locked db' t target = true ↔ t < l.renewed_on + N))
    ∧ (∀ (db : DB) (t : Nat) (target : Target),
        is_locked db t target = true
          ↔ ∃ r ∈ db.locks, r.locked_object = _get_lock_name target
              ∧ r.is_expired t = false) := by
  constructor
  · intro db now target N s l db' hN h t
    obtain ⟨hl, _hnext, rest, hlocks, _hsub, hrest⟩ := acquire_ok_shape h
    have hNne : N ≠ 0 := Nat.pos_iff_ne_zero.mp hN
    have hexp_iff : l.is_expired t = true ↔ l.renewed_on + N ≤ t := by
      rw [hl]
      unfold NonBlockingLock.is_expired
      simp [hNne]
    refine ⟨hexp_iff, ?_⟩
    unfold is_locked
    rw [hlocks, List.any_cons]
    have hrest_any : rest.any
        (fun r => r.locked_object == _get_lock_name target
          && !(r.is_expired t)) = false := by
      rw [Bool.eq_false_iff]
      intro hc
      rcases List.any_eq_true.mp hc with ⟨x, hx, hb⟩
      rw [Bool.and_eq_true] at hb
      exact hrest x hx (by simpa using hb.1)
    rw [hrest_any, Bool.or_false]
    have hname : (l.locked_object == _get_lock_name target) = true := by
      rw [hl]
      simp
    rw [hname, Bool.true_and]
    constructor
    · intro hb
      have : l.is_expired t = false := by simpa using hb
      rw [← Nat.not_le]
      intro hle
      rw [hexp_iff.mpr hle] at this
      simp at this
    · intro hlt
      have : ¬ (l.is_expired t = true) := by
        rw [hexp_iff]
        omega
      simp [Bool.eq_false_iff.mpr this]
  · intro db t target
    unfold is_locked
    rw [List.any_eq_true]
    constructor
    · rintro ⟨r, hr, hb⟩
      rw [Bool.and_eq_true] at hb
      exact ⟨r, hr, by simpa using hb.1, by simpa using hb.2⟩
    · rintro ⟨r, hr, hname, hexp⟩
      exact ⟨r, hr, by simp [hname, hexp]⟩

/-- C8, witness at concrete inputs: the 10-second lease on "u" taken at
time 0 is expired at time 20 (10 + 0 <= 20) and the target is not
locked then (not 20 < 10), while at time 5 it is unexpired and locked;
the general characterisation instantiated on the resulting store at
time 5. -/
theorem C8_witness :
    ((NonBlockingLock.is_expired ⟨0, "u", 0, 0, 10, 10⟩ 20 = true ↔ 0 + 10 ≤ 20)
      ∧ (is_locked ⟨[⟨0, "u", 0, 0, 10, 10⟩], 1⟩ 20 (Target.lockName "u") = true
          ↔ 20 < 0 + 10))
    ∧ ((NonBlockingLock.is_expired ⟨0, "u", 0, 0, 10, 10⟩ 5 = true ↔ 0 + 10 ≤ 5)
      ∧ (is_locked ⟨[⟨0, "u", 0, 0, 10, 10⟩], 1⟩ 5 (Target.lockName "u") = true
          ↔ 5 < 0 + 10))
    ∧ (is_locked ⟨[⟨0, "u", 0, 0, 10, 10⟩], 1⟩ 5 (Target.lockName "u") = true
        ↔ ∃ r ∈ ([⟨0, "u", 0, 0, 10, 10⟩] : List NonBlockingLock),
            r.locked_object = _get_lock_name (Target.lockName "u")
              ∧ r.is_expired 5 = false) :=
  ⟨C8_expiry_boundary.1 ⟨[], 0⟩ 0 (Target.lockName "u") 10 ⟨none⟩
      ⟨0, "u", 0, 0, 10, 10⟩ ⟨[⟨0, "u", 0, 0, 10, 10⟩], 1⟩ (by decide) rfl 20,
   C8_expiry_boundary.1 ⟨[], 0⟩ 0 (Target.lockName "u") 10 ⟨none⟩
      ⟨0, "u", 0, 0, 10, 10⟩ ⟨[⟨0, "u", 0, 0, 10, 10⟩], 1⟩ (by decide) rfl 5,
   C8_expiry_boundary.2 ⟨[⟨0, "u", 0, 0, 10, 10⟩], 1⟩ 5 (Target.lockName "u")⟩

/-- C9: scoped use of a Lock handle: entering the scope returns the
handle itself; whatever exit path the body takes (normal completion or
an error), the scope exit runs the same unconditional release; the
handle's row is absent from the final store; and when the body has not
re-locked the target under another id, is_locked of the target is false
afterwards, on every exit path. -/
theorem C9_scoped_release {e : Type} (l : NonBlockingLock) (db : DB)
    (body : NonBlockingLock → DB → ExitPath e × DB) :
    NonBlockingLock.enter l = l
    ∧ (∀ res dbB, body l db = (res, dbB) →
        useLock l db body = (res, l.exitScope dbB))
    ∧ (∀ r ∈ (useLock l db body).2.locks, r.id ≠ l.id)
    ∧ (∀ (now : Nat) (target : Target),
        _get_lock_name target = l.locked_object →
        (∀ r ∈ (body l db).2.locks,
          r.locked_object = l.locked_object → r.id = l.id) →
        is_locked (useLock l db body).2 now target = false) := by
  refine ⟨rfl, ?_, ?_, ?_⟩
  · intro res dbB hb
    unfold useLock
    rw [show body l.enter db = (res, dbB) from hb]
  · intro r hr
    unfold useLock at hr
    dsimp only at hr
    rw [exitScope_eq] at hr
    have := List.mem_filter.mp hr
    simpa using this.2
  · intro now target hname hbody
    unfold is_locked
    rw [Bool.eq_false_iff]
    intro hc
    rcases List.any_eq_true.mp hc with ⟨r, hr, hb⟩
    rw [Bool.and_eq_true] at hb
    have hrname : r.locked_object = l.locked_object := by
      rw [← hname]
      simpa using hb.1
    unfold useLock at hr
    dsimp only at hr
    rw [exitScope_eq] at hr
    have hrf := List.mem_filter.mp hr
    have : r.id = l.id := hbody r hrf.1 hrname
    rw [this] at hrf
    simpa using hrf.2

/-- C9, witness at a concrete input: the held lease (id 0, name "u") in
a store of one row, used as a scope whose body takes the error exit
path, still ends with the row deleted and the target unlocked. -/
theorem C9_witness :
    NonBlockingLock.enter ⟨0, "u", 0, 0, 0, 0⟩ = ⟨0, "u", 0, 0, 0, 0⟩
    ∧ (∀ r ∈ (@useLock Unit ⟨0, "u", 0, 0, 0, 0⟩
        ⟨[⟨0, "u", 0, 0, 0, 0⟩], 1⟩
        (fun _x d => (ExitPath.err (), d))).2.locks, r.id ≠ 0)
    ∧ is_locked (@useLock Unit ⟨0, "u", 0, 0, 0, 0⟩
        ⟨[⟨0, "u", 0, 0, 0, 0⟩], 1⟩
        (fun _x d => (ExitPath.err (), d))).2 99 (Target.lockName "u") = false :=
  have h := @C9_scoped_release Unit ⟨0, "u", 0, 0, 0, 0⟩
    ⟨[⟨0, "u", 0, 0, 0, 0⟩], 1⟩ (fun _x d => (ExitPath.err (), d))
  ⟨h.1, h.2.2.1, h.2.2.2 99 (Target.lockName "u") rfl (by
    intro r hr _
    rw [List.mem_singleton.mp hr])⟩

theorem DB.eq_of_fields {a b : DB} (h1 : a.locks = b.locks)
    (h2 : a.nextId = b.nextId) : a = b := by
  cases a
  cases b
  simp only at h1 h2
  rw [h1, h2]

theorem find?_update {locks : List NonBlockingLock} {i : Nat}
    {r l' : NonBlockingLock}
    (hfind : locks.find? (fun x => x.id == i) = some r) (hl'id : l'.id = i) :
    (locks.map (fun x => if x.id == i then l' else x)).find?
      (fun x => x.id == i) = some l' := by
  induction locks with
  | nil => simp at hfind
  | cons a tl ih =>
    by_cases ha : (a.id == i) = true
    · rw [List.map_cons, if_pos ha]
      exact List.find?_cons_of_pos _ (by simp [hl'id])
    · rw [@List.find?_cons_of_neg _ (fun x => x.id == i) a tl ha] at hfind
      rw [List.map_cons, if_neg ha]
      rw [@List.find?_cons_of_neg _ (fun x => x.id == i) a
        (tl.map (fun x => if x.id == i then l' else x)) ha]
      exact ih hfind

/-- C10: handle-level renew and manager-level renew by id agree.  For a
held lock (the handle equals its row in a well-formed store) that is
not expired, the handle renew succeeds, and immediately re-renewing
through the manager with the handle's id at the same instant returns
the very same record and leaves the store unchanged: same id, equal
expires_on, idempotent on the stored state. -/
theorem C10_renew_idempotent {db : DB} {now : Nat} {l : NonBlockingLock}
    (hfind : db.locks.find? (fun r => r.id == l.id) = some l)
    (hexp : l.is_expired now = false) (hn : namesOk db) :
    ∃ l' db1, l.renew db now = Except.ok (l', db1)
      ∧ renew_lock db1 now l.id = Except.ok (l', db1)
      ∧ l'.id = l.id ∧ l'.renewed_on = now
      ∧ l'.expires_on = now + l.max_age := by
  have hmem : l ∈ db.locks := List.mem_of_find?_eq_some hfind
  have hconf : ∀ x ∈ db.locks, x.locked_object = l.locked_object → x.id = l.id := by
    intro x hx hxname
    rw [namesOk_unique hn hx hmem hxname]
  obtain ⟨l', db1, heq⟩ := renew_ok_of hexp hconf
  obtain ⟨hl', _, _, hcase⟩ := renew_ok_shape heq
  rcases hcase with ⟨hlocks, hnext, _⟩ | ⟨habs, _, _⟩
  swap
  · exact absurd rfl (habs l hmem)
  have hl'id : l'.id = l.id := by rw [hl']
  have hl'name : l'.locked_object = l.locked_object := by rw [hl']
  have hl'exp : l'.is_expired now = false := by
    rw [hl']
    unfold NonBlockingLock.is_expired
    rcases Nat.eq_zero_or_pos l.max_age with hz | hp
    · simp [hz]
    · simp only [Bool.and_eq_false_imp]
      intro _
      simp
      omega
  have hmem1 : ∀ x ∈ db1.locks, x.id = l.id → x = l' := by
    intro x hx hxid
    rw [hlocks] at hx
    rcases List.mem_map.mp hx with ⟨y, hy, rfl⟩
    by_cases hyid : y.id = l.id
    · rw [if_pos (by simp [hyid])]
    · rw [if_neg (by simp [hyid])] at hxid ⊢
      exact absurd hxid hyid
  have hfind1 : db1.locks.find? (fun r => r.id == l.id) = some l' := by
    rw [hlocks]
    exact find?_update hfind hl'id
  have hconf1 : ∀ x ∈ db1.locks, x.locked_object = l'.locked_object →
      x.id = l'.id := by
    intro x hx hxname
    rw [hlocks] at hx
    rcases List.mem_map.mp hx with ⟨y, hy, rfl⟩
    by_cases hyid : y.id = l.id
    · rw [if_pos (by simp [hyid])]
    · rw [if_neg (by simp [hyid])] at hxname ⊢
      rw [hl'id]
      exact hconf y hy (hxname.trans hl'name)
  obtain ⟨l2, db2, heq2⟩ := renew_ok_of hl'exp hconf1
  obtain ⟨hl2, _, _, hcase2⟩ := renew_ok_shape heq2
  rcases hcase2 with ⟨hlocks2, hnext2, _⟩ | ⟨habs2, _, _⟩
  swap
  · refine absurd rfl (habs2 l' ?_)
    rw [hlocks]
    exact List.mem_map.mpr ⟨l, hmem, by simp⟩
  have hl2eq : l2 = l' := by
    rw [hl2, hl']
  have hdb2eq : db2 = db1 := by
    refine DB.eq_of_fields ?_ hnext2
    rw [hlocks2, hl2eq]
    have hptw : ∀ x ∈ db1.locks,
        (if x.id == l'.id then l' else x) = id x := by
      intro x hx
      by_cases hxid : x.id = l.id
      · rw [if_pos (by simp [hxid, hl'id]), id]
        exact (hmem1 x hx hxid).symm
      · rw [if_neg (by simp [hl'id, hxid]), id]
    rw [List.map_congr_left hptw, List.map_id]
  refine ⟨l', db1, heq, ?_, hl'id, by rw [hl'], by rw [hl']⟩
  rw [renew_lock_eq_renew hfind1, heq2, hl2eq, hdb2eq]

/-- C10, witness at a concrete input: the held 10-second lease on "u"
(id 0) renewed through the handle at time 5 and immediately re-renewed
through the manager by id 0 at time 5 yields the same record and the
same store. -/
theorem C10_witness :
    ∃ l' db1, NonBlockingLock.renew ⟨0, "u", 0, 0, 10, 10⟩
        ⟨[⟨0, "u", 0, 0, 10, 10⟩], 1⟩ 5 = Except.ok (l', db1)
      ∧ renew_lock db1 5 0 = Except.ok (l', db1)
      ∧ l'.id = 0 ∧ l'.renewed_on = 5 ∧ l'.expires_on = 5 + 10 :=
  @C10_renew_idempotent ⟨[⟨0, "u", 0, 0, 10, 10⟩], 1⟩ 5 ⟨0, "u", 0, 0, 10, 10⟩
    rfl (by decide) (List.pairwise_singleton _ _)

end DbLocking
